import Mathlib

/-!
Verification of the blockchain supply-chain ledger
(src/blockchain_supply_chain.py) against its specification.

The development shallowly embeds the core ledger code:

* JSON values are modelled by the mutual inductive type Json below; numeric
  JSON values are modelled as integers (the source also allows floats via
  time.time(), but every externally supplied number, and every number used
  in a concrete input here, is an integer, for which the Python
  serialization agrees with the one defined here).
* Serialization follows json.dumps with sort_keys=True and the default
  separators, including string escaping (ensure_ascii).
* The digest is a full executable SHA-256 over the UTF-8 bytes of the
  serialization, exactly as hashlib.sha256(block_string.encode()).hexdigest().
* A Python object attribute that may be absent (Block.hash before sealing)
  is an Option field; absent dict keys in external block records are
  likewise Option fields.
* The unbounded proof-of-work while loop is modelled with an explicit fuel
  bound; running out of fuel (the source would still be looping) yields
  a failed mine.
* File persistence is modelled by a field holding the last data written by
  save_chain; loading an existing chain file is not modelled, so initial
  states take the no-prior-state branch that seals a genesis block.
-/

/-! ### JSON values and Python json.dumps serialization -/

mutual
/-- A JSON value as handled by the Python source (dicts keep insertion
order; numbers restricted to integers, see the header note). -/
inductive Json where
  | null : Json
  | bool (b : Bool) : Json
  | num (n : Int) : Json
  | str (s : String) : Json
  | arr (xs : JsonList) : Json
  | obj (kvs : JsonKVs) : Json

/-- A list of JSON values (a separate inductive so that all recursions
below are structural). -/
inductive JsonList where
  | nil : JsonList
  | cons (v : Json) (tl : JsonList) : JsonList

/-- Key-value pairs of a JSON object, in insertion order. -/
inductive JsonKVs where
  | nil : JsonKVs
  | cons (k : String) (v : Json) (tl : JsonKVs) : JsonKVs
end

/-- Convert an ordinary list of JSON values to a JsonList. -/
def JsonList.ofList : List Json → JsonList
  | [] => .nil
  | v :: tl => .cons v (JsonList.ofList tl)

/-- Lower-case hexadecimal digit. -/
def hexDigit (n : Nat) : Char :=
  if n < 10 then Char.ofNat (48 + n) else Char.ofNat (87 + n)

/-- Escape one character the way json.dumps (ensure_ascii=True) does. -/
def escapeChar (c : Char) : List Char :=
  if c = '"' then ['\\', '"']
  else if c = '\\' then ['\\', '\\']
  else if c.toNat ≥ 0x20 ∧ c.toNat ≤ 0x7e then [c]
  else if c.toNat = 0x08 then ['\\', 'b']
  else if c.toNat = 0x09 then ['\\', 't']
  else if c.toNat = 0x0a then ['\\', 'n']
  else if c.toNat = 0x0c then ['\\', 'f']
  else if c.toNat = 0x0d then ['\\', 'r']
  else if c.toNat < 0x10000 then
    ['\\', 'u', hexDigit (c.toNat / 4096 % 16), hexDigit (c.toNat / 256 % 16),
     hexDigit (c.toNat / 16 % 16), hexDigit (c.toNat % 16)]
  else
    let v := c.toNat - 0x10000
    let hi := 0xd800 + v / 1024
    let lo := 0xdc00 + v % 1024
    ['\\', 'u', hexDigit (hi / 4096 % 16), hexDigit (hi / 256 % 16),
     hexDigit (hi / 16 % 16), hexDigit (hi % 16),
     '\\', 'u', hexDigit (lo / 4096 % 16), hexDigit (lo / 256 % 16),
     hexDigit (lo / 16 % 16), hexDigit (lo % 16)]

/-- Serialize a string with surrounding quotes, json.dumps style. -/
def quoteStr (s : String) : String :=
  ⟨'"' :: (s.data.flatMap escapeChar) ++ ['"']⟩

/-- Code-point lexicographic order on character lists (Python str less-than). -/
def charListLt : List Char → List Char → Bool
  | [], [] => false
  | [], _ :: _ => true
  | _ :: _, [] => false
  | c :: cs, d :: ds =>
      if c.toNat < d.toNat then true
      else if d.toNat < c.toNat then false
      else charListLt cs ds

/-- Python string less-than, used by sort_keys. -/
def strLt (a b : String) : Bool := charListLt a.data b.data

/-- Insert a key-value pair into a key-sorted JsonKVs. -/
def insertKV (k : String) (v : Json) : JsonKVs → JsonKVs
  | .nil => .cons k v .nil
  | .cons k' v' tl =>
      if strLt k' k then .cons k' v' (insertKV k v tl) else .cons k v (.cons k' v' tl)

mutual
/-- Recursively sort all object keys (the effect of sort_keys=True). -/
def sortJson : Json → Json
  | .null => .null
  | .bool b => .bool b
  | .num n => .num n
  | .str s => .str s
  | .arr xs => .arr (sortJsonList xs)
  | .obj kvs => .obj (sortJsonKVs kvs)

/-- Sort object keys inside every element of a JSON list. -/
def sortJsonList : JsonList → JsonList
  | .nil => .nil
  | .cons v tl => .cons (sortJson v) (sortJsonList tl)

/-- Key-sort an object's pairs, recursively sorting the values. -/
def sortJsonKVs : JsonKVs → JsonKVs
  | .nil => .nil
  | .cons k v tl => insertKV k (sortJson v) (sortJsonKVs tl)
end

mutual
/-- Serialize a (key-sorted) JSON value with the default json.dumps
separators. -/
def dumpsRaw : Json → String
  | .null => "null"
  | .bool true => "true"
  | .bool false => "false"
  | .num n => toString n
  | .str s => quoteStr s
  | .arr xs => "[" ++ dumpsRawList xs ++ "]"
  | .obj kvs => "\x7b" ++ dumpsRawKVs kvs ++ "\x7d"

/-- Serialize the elements of a JSON array, comma separated. -/
def dumpsRawList : JsonList → String
  | .nil => ""
  | .cons v .nil => dumpsRaw v
  | .cons v (.cons w tl) => dumpsRaw v ++ ", " ++ dumpsRawList (.cons w tl)

/-- Serialize the pairs of a JSON object, comma separated. -/
def dumpsRawKVs : JsonKVs → String
  | .nil => ""
  | .cons k v .nil => quoteStr k ++ ": " ++ dumpsRaw v
  | .cons k v (.cons k' w tl) =>
      quoteStr k ++ ": " ++ dumpsRaw v ++ ", " ++ dumpsRawKVs (.cons k' w tl)
end

/-- json.dumps(value, sort_keys=True): canonical, deterministic
serialization used by Block.compute_hash. -/
def Json.dumps (j : Json) : String := dumpsRaw (sortJson j)

/-! ### SHA-256 (hashlib.sha256 over the UTF-8 bytes, hex digest) -/

/-- Truncate to a 32-bit word. -/
def w32 (x : Nat) : Nat := x % 4294967296

/-- Right rotation of a 32-bit word. -/
def rotr (n x : Nat) : Nat := w32 ((x >>> n) ||| (x <<< (32 - n)))

/-- The SHA-256 round constants. -/
def shaK : List Nat :=
  [1116352408, 1899447441, 3049323471, 3921009573, 961987163,
   1508970993, 2453635748, 2870763221, 3624381080, 310598401,
   607225278, 1426881987, 1925078388, 2162078206, 2614888103,
   3248222580, 3835390401, 4022224774, 264347078, 604807628,
   770255983, 1249150122, 1555081692, 1996064986, 2554220882,
   2821834349, 2952996808, 3210313671, 3336571891, 3584528711,
   113926993, 338241895, 666307205, 773529912, 1294757372,
   1396182291, 1695183700, 1986661051, 2177026350, 2456956037,
   2730485921, 2820302411, 3259730800, 3345764771, 3516065817,
   3600352804, 4094571909, 275423344, 430227734, 506948616,
   659060556, 883997877, 958139571, 1322822218, 1537002063,
   1747873779, 1955562222, 2024104815, 2227730452, 2361852424,
   2428436474, 2756734187, 3204031479, 3329325298]

/-- The SHA-256 initial hash state. -/
def sha256Init : List Nat :=
  [1779033703, 3144134277, 1013904242, 2773480762,
   1359893119, 2600822924, 528734635, 1541459225]

/-- Big-endian grouping of bytes into 32-bit words. -/
def bytesToWords : List Nat → List Nat
  | b0 :: b1 :: b2 :: b3 :: rest => (b0 * 16777216 + b1 * 65536 + b2 * 256 + b3) :: bytesToWords rest
  | _ => []

/-- Extend the reversed message-schedule word list by the given number of
words (48 steps for one chunk). -/
def extendW : Nat → List Nat → List Nat
  | 0, w => w
  | f + 1, w =>
      let a := w.getD 1 0
      let b := w.getD 14 0
      let s0 := (rotr 7 b) ^^^ (rotr 18 b) ^^^ (b >>> 3)
      let s1 := (rotr 17 a) ^^^ (rotr 19 a) ^^^ (a >>> 10)
      let nw := w32 (w.getD 15 0 + s0 + w.getD 6 0 + s1)
      extendW f (nw :: w)

/-- One SHA-256 compression round on the eight-word working state. -/
def shaRound (st : List Nat) (kw : Nat × Nat) : List Nat :=
  match st with
  | [a, b, c, d, e, f, g, h] =>
      let s1 := (rotr 6 e) ^^^ (rotr 11 e) ^^^ (rotr 25 e)
      let ch := (e &&& f) ^^^ ((4294967295 - e) &&& g)
      let t1 := w32 (h + s1 + ch + kw.1 + kw.2)
      let s0 := (rotr 2 a) ^^^ (rotr 13 a) ^^^ (rotr 22 a)
      let mj := (a &&& b) ^^^ (a &&& c) ^^^ (b &&& c)
      let t2 := w32 (s0 + mj)
      [w32 (t1 + t2), a, b, c, w32 (d + t1), e, f, g]
  | _ => st

/-- Pointwise 32-bit addition of two hash states. -/
def addStates : List Nat → List Nat → List Nat
  | x :: xs, y :: ys => w32 (x + y) :: addStates xs ys
  | _, _ => []

/-- Process one 64-byte chunk against the running hash state. -/
def processChunk (h : List Nat) (chunk : List Nat) : List Nat :=
  let w0 := (bytesToWords chunk).reverse
  let w := (extendW 48 w0).reverse
  let final := (shaK.zip w).foldl shaRound h
  addStates h final

/-- Split a byte list into 64-byte chunks (the fuel is an upper bound on
the number of bytes, so the length of the list itself always suffices). -/
def chunksF : Nat → List Nat → List (List Nat)
  | 0, _ => []
  | _ + 1, [] => []
  | f + 1, l => l.take 64 :: chunksF f (l.drop 64)

/-- The 8-byte big-endian encoding of the message bit length. -/
def lenBytes8 (n : Nat) : List Nat :=
  [n / 72057594037927936 % 256, n / 281474976710656 % 256, n / 1099511627776 % 256,
   n / 4294967296 % 256, n / 16777216 % 256, n / 65536 % 256, n / 256 % 256, n % 256]

/-- SHA-256 message padding. -/
def padMessage (msg : List Nat) : List Nat :=
  let l := msg.length
  let padLen := (64 + 55 - (l + 1) % 64 + 1) % 64
  msg ++ [0x80] ++ List.replicate padLen 0 ++ lenBytes8 (8 * l)

/-- SHA-256 of a byte list, as eight 32-bit words. -/
def sha256Words (msg : List Nat) : List Nat :=
  let padded := padMessage msg
  (chunksF padded.length padded).foldl processChunk sha256Init

/-- Hexadecimal rendering of one 32-bit word. -/
def wordHex (n : Nat) : List Char :=
  [hexDigit (n / 268435456 % 16), hexDigit (n / 16777216 % 16), hexDigit (n / 1048576 % 16),
   hexDigit (n / 65536 % 16), hexDigit (n / 4096 % 16), hexDigit (n / 256 % 16),
   hexDigit (n / 16 % 16), hexDigit (n % 16)]

/-- UTF-8 encoding of one character. -/
def encChar (c : Char) : List Nat :=
  let n := c.toNat
  if n < 128 then [n]
  else if n < 2048 then [192 + n / 64, 128 + n % 64]
  else if n < 65536 then [224 + n / 4096, 128 + n / 64 % 64, 128 + n % 64]
  else [240 + n / 262144, 128 + n / 4096 % 64, 128 + n / 64 % 64, 128 + n % 64]

/-- UTF-8 encoding of a string (str.encode()). -/
def utf8Bytes (s : String) : List Nat := s.data.flatMap encChar

/-- hashlib.sha256(s.encode()).hexdigest(). -/
def sha256hex (s : String) : String :=
  ⟨(sha256Words (utf8Bytes s)).flatMap wordHex⟩

/-! ### The Block data model (class Block) -/

/-- A Block object. The hash field models the Python hash attribute,
which is absent (none) until the ledger seals the block. -/
structure Block where
  index : Int
  timestamp : Json
  transactions : List Json
  previous_hash : String
  nonce : Nat
  hash : Option String

/-- The instance dictionary serialized by compute_hash: all attributes in
insertion order; the hash attribute is part of it exactly when it has been
assigned. -/
def Block.dict (b : Block) : Json :=
  .obj (.cons "index" (.num b.index)
       (.cons "timestamp" b.timestamp
       (.cons "transactions" (.arr (JsonList.ofList b.transactions))
       (.cons "previous_hash" (.str b.previous_hash)
       (.cons "nonce" (.num b.nonce)
       (match b.hash with
        | some h => .cons "hash" (.str h) .nil
        | none => .nil))))))

/-- Block.compute_hash: SHA-256 hex digest of the sorted-keys JSON
serialization of the instance dictionary. -/
def Block.compute_hash (b : Block) : String := sha256hex (Json.dumps b.dict)

/-- An externally supplied block record (a parsed JSON dict as accepted by
is_chain_valid and the consensus route). The hash field distinguishes the
three states of the record's "hash" key: none models an absent key,
some none a key present with the value null, and some (some s) a key
present with the string s — validation treats null like an absent key
(both are falsy) but the consensus reconstruction keeps a stored null.
An absent "nonce" key is modelled by the value 0 that the source
substitutes for it. -/
structure BlockRecord where
  index : Int
  timestamp : Json
  transactions : List Json
  previous_hash : String
  nonce : Nat
  hash : Option (Option String)

/-- The minimal Block reconstructed from a record (no hash attribute yet),
as built at the top of the validation loop. -/
def BlockRecord.toBlock (r : BlockRecord) : Block :=
  ⟨r.index, r.timestamp, r.transactions, r.previous_hash, r.nonce, none⟩

/-! ### Validation (is_valid_proof, is_chain_valid) -/

/-- Proof-of-work difficulty (number of leading zeros), fixed at 3. -/
def DIFFICULTY : Nat := 3

/-- The string of DIFFICULTY zero characters that a digest must begin with. -/
def difficultyZeros : String := ⟨List.replicate DIFFICULTY '0'⟩

/-- Whether the first list is an initial segment of the second. -/
def charsStartWith : List Char → List Char → Bool
  | [], _ => true
  | _ :: _, [] => false
  | p :: ps, c :: cs => if p = c then charsStartWith ps cs else false

/-- str.startswith. -/
def strStartsWith (s p : String) : Bool := charsStartWith p.data s.data

/-- Blockchain.is_valid_proof: the claimed hash must meet the difficulty
target and reproduce from the block's own fields. -/
def is_valid_proof (block : Block) (block_hash : String) : Bool :=
  strStartsWith block_hash difficultyZeros && block_hash == block.compute_hash

/-- The hash value the validation loop takes for a record: the stated
hash if it is truthy (a present, non-empty string), otherwise — the key
absent, null, or the empty string, all falsy — the recomputed digest of
the minimal reconstructed block. -/
def effectiveHash (r : BlockRecord) : String :=
  match r.hash with
  | some (some s) => if s = "" then r.toBlock.compute_hash else s
  | some none => r.toBlock.compute_hash
  | none => r.toBlock.compute_hash

/-- The validation loop of is_chain_valid after the genesis record:
lastHash is the hash taken for the previous record. -/
def chainCheck (lastHash : String) : List BlockRecord → Bool
  | [] => true
  | r :: rest =>
      if r.previous_hash == lastHash then
        if is_valid_proof r.toBlock (effectiveHash r) then chainCheck (effectiveHash r) rest
        else false
      else false

/-- Blockchain.is_chain_valid on a supplied list of block records. -/
def is_chain_valid : List BlockRecord → Bool
  | [] => false
  | g :: rest => chainCheck (effectiveHash g) rest

/-! ### The ledger state (class Blockchain) -/

/-- The mutable state of one Blockchain instance. The saved field holds
the last (chain, pending) data handed to the persistence file by
save_chain, in the exact layout _block_to_dict produces. -/
structure LedgerState where
  chain : List Block
  pending_transactions : List Json
  saved : Option (List BlockRecord × List Json)

/-- Blockchain._block_to_dict: getattr with default None saves an unset
hash attribute as null, so the saved hash key is always present. -/
def Block.to_dict (b : Block) : BlockRecord :=
  ⟨b.index, b.timestamp, b.transactions, b.previous_hash, b.nonce, some b.hash⟩

/-- Blockchain.save_chain: record the serialized chain and pool. -/
def save_chain (st : LedgerState) : LedgerState :=
  {st with saved := some (st.chain.map Block.to_dict, st.pending_transactions)}

/-- The genesis block created on first start: its digest is computed while
the hash attribute is still absent, then assigned. -/
def genesisBlock (t0 : Json) : Block :=
  let g : Block := ⟨0, t0, [Json.obj (.cons "genesis" (.bool true) .nil)], "0", 0, none⟩
  {g with hash := some g.compute_hash}

/-- Blockchain.__init__ when no chain file exists: an empty pool and a
freshly sealed genesis block, persisted. The genesis timestamp t0 is the
external clock value; see the header note on numeric values. -/
def initState (t0 : Json) : LedgerState :=
  save_chain ⟨[genesisBlock t0], [], none⟩

/-- Key lookup in an object's pair list (first occurrence). -/
def jsonGetKVs (k : String) : JsonKVs → Option Json
  | .nil => none
  | .cons k' v tl => if k' = k then some v else jsonGetKVs k tl

/-- Key membership in an object's pair list. -/
def hasKey (k : String) : JsonKVs → Bool
  | .nil => false
  | .cons k' _ tl => if k' = k then true else hasKey k tl

/-- Assigning a fresh key appends it at the end (Python dict insertion
order). -/
def appendKV : JsonKVs → String → Json → JsonKVs
  | .nil, k, v => .cons k v .nil
  | .cons k' v' tl, k, v => .cons k' v' (appendKV tl k v)

/-- Blockchain.new_transaction: copy the submitted dict, add a fresh tx_id
if missing, add the current time as timestamp if missing (a present value,
including null, is kept), append to the pool and persist. -/
def new_transaction (st : LedgerState) (transaction : JsonKVs) (freshId : String) (now : Json) :
    LedgerState × Json :=
  let tx1 := if hasKey "tx_id" transaction then transaction
             else appendKV transaction "tx_id" (.str freshId)
  let tx2 := if hasKey "timestamp" tx1 then tx1 else appendKV tx1 "timestamp" now
  (save_chain {st with pending_transactions := st.pending_transactions ++ [Json.obj tx2]},
   Json.obj tx2)

/-- The hash of the chain head read by add_block. The source indexes
chain[-1] and reads its hash attribute; both always exist in reachable
states (the chain starts non-empty and only sealed blocks are appended),
so the defaults here are never taken on the states the claims range over. -/
def chainLastHash (st : LedgerState) : String :=
  match st.chain.getLast? with
  | some b => b.hash.getD ""
  | none => ""

/-- Blockchain.add_block: re-check the link to the current head, verify
the proof, then seal (assign the hash attribute) and append. -/
def add_block (st : LedgerState) (block : Block) (proof : String) : LedgerState × Bool :=
  if block.previous_hash == chainLastHash st then
    if is_valid_proof block proof then
      (save_chain {st with chain := st.chain ++ [{block with hash := some proof}]}, true)
    else (st, false)
  else (st, false)

/-- The proof-of-work search loop: recompute the digest, incrementing the
nonce, until the difficulty target is met. The fuel bounds the number of
attempts; the source loop is unbounded. -/
def powLoop : Nat → Block → Option (Block × String)
  | 0, _ => none
  | f + 1, b =>
      let computed := b.compute_hash
      if strStartsWith computed difficultyZeros then some (b, computed)
      else powLoop f {b with nonce := b.nonce + 1}

/-- Blockchain.proof_of_work: reset the nonce to 0, then search. -/
def proof_of_work (fuel : Nat) (block : Block) : Option (Block × String) :=
  powLoop fuel {block with nonce := 0}

/-- The synthetic reward transaction built on a successful mine, with the
fields in the source's insertion order. -/
def rewardTx (txId minerId : String) (rtime : Json) (blockIndex : Int) : Json :=
  .obj (.cons "tx_id" (.str txId)
       (.cons "type" (.str "reward")
       (.cons "product_id" .null
       (.cons "from" .null
       (.cons "to" (.str minerId)
       (.cons "metadata"
          (.obj (.cons "reward" (.str "mined_block")
                (.cons "block_index" (.num blockIndex) .nil)))
       (.cons "timestamp" rtime .nil)))))))

/-- The tail of Blockchain.mine from the add_block attempt on: on success
replace the pool with a single reward transaction when a truthy miner_id
was supplied (the empty string is falsy), clear it otherwise, persist, and
return the sealed block; on failure return none with the state unchanged. -/
def mineAppendStep (st : LedgerState) (new_block : Block) (proof : String)
    (miner_id : Option String) (rewardId : String) (rewardTime : Json) :
    LedgerState × Option Block :=
  let res := add_block st new_block proof
  if res.2 then
    let sealed := {new_block with hash := some proof}
    let st2 :=
      match miner_id with
      | some m =>
          if m = "" then {res.1 with pending_transactions := []}
          else {res.1 with pending_transactions := [rewardTx rewardId m rewardTime new_block.index]}
      | none => {res.1 with pending_transactions := []}
    (save_chain st2, some sealed)
  else (res.1, none)

/-- Blockchain.mine: nothing to do on an empty pool; otherwise build the
candidate block on top of the head, run the proof-of-work search and
attempt to append. now is the candidate's construction time; rewardId and
rewardTime feed the optional reward transaction. -/
def mine (st : LedgerState) (now : Json) (miner_id : Option String)
    (rewardId : String) (rewardTime : Json) (fuel : Nat) : LedgerState × Option Block :=
  match st.pending_transactions with
  | [] => (st, none)
  | _ :: _ =>
      match st.chain.getLast? with
      | none => (st, none)
      | some last_block =>
          let new_block : Block :=
            ⟨last_block.index + 1, now, st.pending_transactions, last_block.hash.getD "", 0, none⟩
          match proof_of_work fuel new_block with
          | none => (st, none)
          | some (mined, proof) => mineAppendStep st mined proof miner_id rewardId rewardTime

/-! ### Fork resolution (the consensus route) -/

/-- The distinct outcomes of the consensus route. -/
inductive ConsensusOutcome where
  | error : ConsensusOutcome
  | tooShort : ConsensusOutcome
  | replaced : ConsensusOutcome
  | invalid : ConsensusOutcome
deriving DecidableEq

/-- Sealed-block reconstruction of an accepted candidate record via
dict.get: a present hash key is kept as stored — a string (even the empty
one) stays that string and a null leaves the hash attribute None — while
only an absent key falls back to the recomputed digest. A hash attribute
holding None is modelled like an attribute never assigned: the two are
indistinguishable to proof-of-work validity, to persistence (getattr with
default None saves both as null) and to linkage, and no claim recomputes
the serialized digest of such a reconstructed block, the one spot where
they would differ. -/
def reconstructBlock (r : BlockRecord) : Block :=
  {r.toBlock with hash := match r.hash with
                          | some (some s) => some s
                          | some none => none
                          | none => some r.toBlock.compute_hash}

/-- The consensus route: none or an empty list is the missing-chain error;
a candidate no longer than the local chain is rejected unvalidated; a
strictly longer candidate replaces the local chain if valid and is
rejected with the distinct invalid signal otherwise. -/
def consensus (st : LedgerState) (input : Option (List BlockRecord)) :
    LedgerState × ConsensusOutcome :=
  match input with
  | none => (st, .error)
  | some external_chain =>
      match external_chain with
      | [] => (st, .error)
      | _ :: _ =>
          if external_chain.length ≤ st.chain.length then (st, .tooShort)
          else if is_chain_valid external_chain then
            (save_chain {st with chain := external_chain.map reconstructBlock}, .replaced)
          else (st, .invalid)

/-! ### Product history -/

/-- Python value.get(key) on a transaction: none for a non-dict, an absent
key, or a stored null (all of which Python renders as None). -/
def pyGet (tx : Json) (k : String) : Option Json :=
  match tx with
  | .obj kvs =>
      match jsonGetKVs k kvs with
      | some Json.null => none
      | some v => some v
      | none => none
  | _ => none

/-- The match tx.get("product_id") == product_id performed by the history
scan (true only for an equal string value). -/
def matchesProduct (tx : Json) (product_id : String) : Bool :=
  match pyGet tx "product_id" with
  | some (.str s) => s == product_id
  | _ => false

/-- One entry of the history result: the originating block index (none for
the pending pool), the transaction, and its timestamp tag. -/
structure HistoryEntry where
  block_index : Option Int
  tx : Json
  timestamp : Option Json

/-- The Python sort key (entry timestamp or 0): defined for values whose
truthiness or numeric value Python can compare with integers; none for a
truthy non-numeric value, on which the source would raise. -/
def entryKey (e : HistoryEntry) : Option Int :=
  match e.timestamp with
  | none => some 0
  | some .null => some 0
  | some (.num n) => some n
  | some (.bool b) => some (if b then 1 else 0)
  | some (.str s) => if s = "" then some 0 else none
  | some (.arr .nil) => some 0
  | some (.arr (.cons _ _)) => none
  | some (.obj .nil) => some 0
  | some (.obj (.cons _ _ _)) => none

/-- The total sort key on entries whose key is defined. -/
def entryKeyZ (e : HistoryEntry) : Int := (entryKey e).getD 0

/-- The unsorted history: matching transactions of every sealed block,
tagged with the block index, then matching pool transactions tagged as
pending. -/
def collectHistory (st : LedgerState) (product_id : String) : List HistoryEntry :=
  (st.chain.flatMap fun b =>
    (b.transactions.filter (matchesProduct · product_id)).map fun tx =>
      ⟨some b.index, tx, pyGet tx "timestamp"⟩)
  ++ (st.pending_transactions.filter (matchesProduct · product_id)).map fun tx =>
      ⟨none, tx, pyGet tx "timestamp"⟩

/-- Stable insertion into a key-sorted list (an element is placed before
the existing entries of equal key, matching Python's stable sort). -/
def insertByKey (x : HistoryEntry) : List HistoryEntry → List HistoryEntry
  | [] => [x]
  | y :: ys => if entryKeyZ y < entryKeyZ x then y :: insertByKey x ys else x :: y :: ys

/-- Stable sort by the timestamp key (the output of Python sorted with
this key on integer-comparable keys). -/
def sortByKey : List HistoryEntry → List HistoryEntry
  | [] => []
  | x :: xs => insertByKey x (sortByKey xs)

/-- Blockchain.get_product_history: collect and sort; none models the
TypeError Python raises when some collected timestamp is truthy but not
comparable with the integer default. -/
def get_product_history (st : LedgerState) (product_id : String) : Option (List HistoryEntry) :=
  let history := collectHistory st product_id
  if history.all fun e => (entryKey e).isSome then some (sortByKey history) else none

set_option maxRecDepth 100000

/-! ### Reachable ledger states -/

/-- Ledger states reachable through the core operations: first start with
no persisted file, transaction submission, mining, and fork resolution.
The clock, fresh-id and fuel arguments are the external inputs of each
step. -/
inductive Reachable : LedgerState → Prop where
  | init (t0 : Json) : Reachable (initState t0)
  | submit (st : LedgerState) (transaction : JsonKVs) (freshId : String) (now : Json) :
      Reachable st → Reachable (new_transaction st transaction freshId now).1
  | mined (st : LedgerState) (now : Json) (miner_id : Option String) (rewardId : String)
      (rewardTime : Json) (fuel : Nat) :
      Reachable st → Reachable (mine st now miner_id rewardId rewardTime fuel).1
  | resolve (st : LedgerState) (input : Option (List BlockRecord)) :
      Reachable st → Reachable (consensus st input).1

/-- Ledger states reachable without fork resolution (initial start,
transaction submission and mining only). -/
inductive ReachableLocal : LedgerState → Prop where
  | init (t0 : Json) : ReachableLocal (initState t0)
  | submit (st : LedgerState) (transaction : JsonKVs) (freshId : String) (now : Json) :
      ReachableLocal st → ReachableLocal (new_transaction st transaction freshId now).1
  | mined (st : LedgerState) (now : Json) (miner_id : Option String) (rewardId : String)
      (rewardTime : Json) (fuel : Nat) :
      ReachableLocal st → ReachableLocal (mine st now miner_id rewardId rewardTime fuel).1

/-! ### Concrete inputs used by witnesses and counterexamples

The digests below are SHA-256 values of the corresponding serializations;
each one is recomputed inside the proofs that use it, so a wrong constant
would make those proofs fail. -/

/-- The digest of the genesis block created at clock value 1. -/
def gHashStr : String := "66678a1e1d264fbd0f77a50cf66be47a03bf0721a471948a11fd9a6bd87dfd56"

/-- A submitted transaction (tx_id chosen so that the crafted mine below
meets the difficulty target already at nonce 0). -/
def craftedTx : JsonKVs :=
  .cons "type" (.str "create")
    (.cons "product_id" (.str "prod-0001")
      (.cons "tx_id" (.str "t8979")
        (.cons "timestamp" (.num 5) .nil)))

/-- The ledger after first start (clock 1) and submission of craftedTx. -/
def craftedState : LedgerState :=
  (new_transaction (initState (.num 1)) craftedTx "unusedFreshId" (.num 5)).1

/-- The digest of the crafted candidate block mined on craftedState at
clock 6 (valid at nonce 0). -/
def craftedDigest : String :=
  "000ff52dafed3944ef3e770885d34348dedb387838493039700a0794798a4a88"

/-- The ledger after the crafted mine (no miner id). -/
def craftedMinedState : LedgerState :=
  (mine craftedState (.num 6) none "r1" (.num 9) 1).1

/-- A fabricated genesis record with index 7 and the trusted stated hash
"ff": is_chain_valid accepts any genesis record unconditionally. -/
def gRec7 : BlockRecord := ⟨7, .num 2, [], "0", 0, some (some "ff")⟩

/-- A record with index 99 mined (externally) on top of the stated hash
"ff"; its stated hash is its genuine digest and meets the difficulty. -/
def bRec99 : BlockRecord :=
  ⟨99, .num 3, [], "ff", 235,
   some (some "000d776d923d1d1e1cc836e306236b9c5ba0c95c178fce0c56986f4754fd200f")⟩

/-- A candidate chain that passes is_chain_valid although its indices are
7 and 99 and its genesis digest meets no difficulty target. -/
def badChain : List BlockRecord := [gRec7, bRec99]

/-- badChain with one tampered link, for the invalid-rejection branch. -/
def tamperedChain : List BlockRecord := [gRec7, {bRec99 with previous_hash := "zz"}]

/-- badChain with the non-genesis record's hash key set to null:
validation treats the falsy null like an absent key and recomputes the
digest, so the chain is accepted, but the consensus reconstruction keeps
the stored null as an unset hash attribute. -/
def nullChain : List BlockRecord := [gRec7, {bRec99 with hash := some none}]

/-- The ledger after first start (clock 1) and adoption of badChain by the
consensus route. -/
def badState : LedgerState := (consensus (initState (.num 1)) (some badChain)).1

/-! ### Derived predicates and further concrete inputs -/

/-- The pairwise condition is_chain_valid enforces between consecutive
records: the link to the previous record's effective hash, and proof
validity of the record's own effective hash. -/
def recordLink (prev cur : BlockRecord) : Prop :=
  cur.previous_hash = effectiveHash prev ∧
  is_valid_proof cur.toBlock (effectiveHash cur) = true

/-- Proof-of-work validity of a sealed block as the spec states it: a
stored digest that begins with DIFFICULTY zeros and equals the digest
recomputed from the block's own five fields (hash attribute removed). -/
def PoWValidB (b : Block) : Bool :=
  match b.hash with
  | none => false
  | some h => strStartsWith h difficultyZeros && h == Block.compute_hash {b with hash := none}

/-- The chain-shape invariant maintained by the non-consensus operations:
a non-empty chain whose genesis digest is reproducible from its own five
fields, whose later blocks are all proof-of-work valid, and whose indices
count up from 0. -/
def ChainListInv (l : List Block) : Prop :=
  l ≠ [] ∧
  (∀ (h0 : 0 < l.length), l[0].hash = some (Block.compute_hash {l[0] with hash := none})) ∧
  (∀ (i : Nat) (hi : i < l.length), 0 < i → PoWValidB l[i] = true) ∧
  (∀ (i : Nat) (hi : i < l.length), l[i].index = (i : Int))

/-- The ordering the history sort establishes: ascending timestamp keys
(a missing or falsy timestamp counting as 0). -/
def entriesLE (a b : HistoryEntry) : Prop := entryKeyZ a ≤ entryKeyZ b

/-- A block whose previous_hash does not match the head, so that the
add_block re-check fails. -/
def c10Block : Block := ⟨1, .num 2, [], "not-the-head-hash", 0, none⟩

/-- The sealed block of the crafted mine (nonce 0 meets the difficulty). -/
def c6Block : Block := ⟨1, .num 6, [Json.obj craftedTx], gHashStr, 0, some craftedDigest⟩

/-- The full attribute tuple of a Block object, sealing state included. -/
def blockAttrs (b : Block) : Int × Json × List Json × String × Nat × Option String :=
  (b.index, b.timestamp, b.transactions, b.previous_hash, b.nonce, b.hash)

/-- The serialized dictionary of a block without a hash attribute, keys
already in sorted order. -/
def sortedBaseKVs (b : Block) : JsonKVs :=
  .cons "index" (.num b.index)
    (.cons "nonce" (.num b.nonce)
      (.cons "previous_hash" (.str b.previous_hash)
        (.cons "timestamp" (sortJson b.timestamp)
          (.cons "transactions" (.arr (sortJsonList (JsonList.ofList b.transactions))) .nil))))

/-- The unsealed block used in the C1 counterexample. -/
def c1Block : Block := ⟨0, .num 1, [], "0", 0, none⟩

/-- A sealed transaction for product prod-0001 with timestamp 10. -/
def c8TxA : Json :=
  .obj (.cons "tx_id" (.str "a")
    (.cons "product_id" (.str "prod-0001") (.cons "timestamp" (.num 10) .nil)))

/-- A sealed transaction for prod-0001 with no timestamp (treated as 0). -/
def c8TxB : Json :=
  .obj (.cons "tx_id" (.str "b") (.cons "product_id" (.str "prod-0001") .nil))

/-- A sealed transaction for a different product (must not appear). -/
def c8TxC : Json :=
  .obj (.cons "tx_id" (.str "c")
    (.cons "product_id" (.str "other") (.cons "timestamp" (.num 1) .nil)))

/-- A pending transaction for prod-0001 with timestamp 5. -/
def c8TxD : Json :=
  .obj (.cons "tx_id" (.str "d")
    (.cons "product_id" (.str "prod-0001") (.cons "timestamp" (.num 5) .nil)))

/-- A ledger with two sealed blocks and one pending transaction, mixing
sealed, pending, missing-timestamp and non-matching transactions. -/
def c8State : LedgerState :=
  ⟨[⟨0, .num 1, [c8TxA], "0", 0, some "h0"⟩,
    ⟨1, .num 2, [c8TxB, c8TxC], "h0", 0, some "h1"⟩],
   [c8TxD], none⟩


/-! ### Helper lemmas -/

theorem strData_append (a b : String) : (a ++ b).data = a.data ++ b.data := by
  cases a; cases b; rfl

theorem charsStartWith_iff (p s : List Char) :
    charsStartWith p s = true ↔ s.take p.length = p := by
  induction p generalizing s with
  | nil => simp [charsStartWith]
  | cons c cs ih =>
    cases s with
    | nil => simp [charsStartWith]
    | cons d ds =>
      by_cases h : c = d
      · subst h
        simp [charsStartWith, ih]
      · simp [charsStartWith, h, Ne.symm h]

theorem chainCheck_iff (g : BlockRecord) (rest : List BlockRecord) :
    chainCheck (effectiveHash g) rest = true ↔ List.Chain' recordLink (g :: rest) := by
  induction rest generalizing g with
  | nil => simp [chainCheck]
  | cons r rs ih =>
    rw [List.chain'_cons, ← ih r]
    rcases eq_or_ne r.previous_hash (effectiveHash g) with h1 | h1
    · by_cases h2 : is_valid_proof r.toBlock (effectiveHash r) = true
      · simp [chainCheck, h1, h2, recordLink]
      · simp [chainCheck, h1, h2, recordLink]
    · simp [chainCheck, h1, recordLink]

theorem powLoop_spec (f : Nat) (b b' : Block) (pf : String)
    (h : powLoop f b = some (b', pf)) :
    pf = b'.compute_hash ∧ strStartsWith pf difficultyZeros = true ∧
    b'.index = b.index ∧ b'.timestamp = b.timestamp ∧
    b'.transactions = b.transactions ∧ b'.previous_hash = b.previous_hash ∧
    b'.hash = b.hash := by
  induction f generalizing b with
  | zero => simp [powLoop] at h
  | succ f ih =>
    rw [powLoop] at h
    by_cases hs : strStartsWith b.compute_hash difficultyZeros = true
    · simp only [hs, if_pos] at h
      obtain ⟨rfl, rfl⟩ : b = b' ∧ b.compute_hash = pf := by
        constructor <;> [exact congrArg (·.1) (Option.some.inj h);
          exact congrArg (·.2) (Option.some.inj h)]
      exact ⟨rfl, hs, rfl, rfl, rfl, rfl, rfl⟩
    · simp only [hs, if_neg, Bool.not_eq_true] at h
      rcases ih _ h with ⟨h1, h2, h3, h4, h5, h6, h7⟩
      exact ⟨h1, h2, h3, h4, h5, h6, h7⟩

theorem block_strip (b : Block) (p : String) (h : b.hash = none) :
    ({ {b with hash := some p} with hash := none} : Block) = b := by
  cases b
  simp_all

theorem add_block_false (st : LedgerState) (block : Block) (proof : String)
    (h : (add_block st block proof).2 = false) : (add_block st block proof).1 = st := by
  unfold add_block at *
  cases hb : block.previous_hash == chainLastHash st with
  | false => simp [hb]
  | true =>
    cases hv : is_valid_proof block proof with
    | false => simp [hb, hv]
    | true => simp [hb, hv] at h

theorem add_block_true (st : LedgerState) (block : Block) (proof : String)
    (h : (add_block st block proof).2 = true) :
    (add_block st block proof).1.chain = st.chain ++ [{block with hash := some proof}] ∧
    is_valid_proof block proof = true := by
  unfold add_block at *
  cases hb : block.previous_hash == chainLastHash st with
  | false => simp [hb] at h
  | true =>
    cases hv : is_valid_proof block proof with
    | false => simp [hb, hv] at h
    | true => simp [hb, hv, save_chain]

theorem mine_cases (st : LedgerState) (now : Json) (miner_id : Option String)
    (rewardId : String) (rewardTime : Json) (fuel : Nat) :
    (mine st now miner_id rewardId rewardTime fuel).1.chain = st.chain ∨
    ∃ (block : Block) (proof : String) (lb : Block),
      st.chain.getLast? = some lb ∧
      block.hash = none ∧
      block.index = lb.index + 1 ∧
      is_valid_proof block proof = true ∧
      (mine st now miner_id rewardId rewardTime fuel).1.chain =
        st.chain ++ [{block with hash := some proof}] := by
  unfold mine
  cases hp : st.pending_transactions with
  | nil => left; rfl
  | cons t ts =>
    cases hl : st.chain.getLast? with
    | none => left; rfl
    | some lb =>
      cases hpw : proof_of_work fuel ⟨lb.index + 1, now, t :: ts, lb.hash.getD "", 0, none⟩ with
      | none => left; simp [hpw]
      | some pr =>
        obtain ⟨mined, pf⟩ := pr
        have hspec := powLoop_spec fuel _ mined pf hpw
        simp only [hpw]
        cases ha : (add_block st mined pf).2 with
        | false =>
          left
          have := add_block_false st mined pf ha
          simp [mineAppendStep, ha, this]
        | true =>
          right
          obtain ⟨hchain, hproof⟩ := add_block_true st mined pf ha
          refine ⟨mined, pf, lb, rfl, ?_, ?_, hproof, ?_⟩
          · exact hspec.2.2.2.2.2.2
          · exact hspec.2.2.1
          · cases miner_id with
            | none => simp [mineAppendStep, ha, save_chain, hchain]
            | some m =>
              by_cases hm : m = "" <;> simp [mineAppendStep, ha, save_chain, hchain, hm]

theorem chainListInv_append (l : List Block) (block lb : Block) (proof : String)
    (inv : ChainListInv l) (hl : l.getLast? = some lb) (hbh : block.hash = none)
    (hbi : block.index = lb.index + 1) (hvp : is_valid_proof block proof = true) :
    ChainListInv (l ++ [{block with hash := some proof}]) := by
  obtain ⟨hne, hgen, hpow, hidx⟩ := inv
  have hlen : 0 < l.length := List.length_pos.mpr hne
  have hlb : lb = l[l.length - 1] := by
    have hg := List.getLast?_eq_getLast_of_ne_nil hne
    rw [hg] at hl
    have h2 := Option.some.inj hl
    rw [← h2, List.getLast_eq_getElem]
  refine ⟨by simp, ?_, ?_, ?_⟩
  · intro h0
    rw [List.getElem_append_left hlen]
    exact hgen hlen
  · intro i hi hpos
    rw [List.length_append, List.length_cons, List.length_nil] at hi
    by_cases hlt : i < l.length
    · rw [List.getElem_append_left hlt]
      exact hpow i hlt hpos
    · have hieq : i = l.length := by omega
      subst hieq
      rw [List.getElem_append_right (Nat.le_refl _)]
      simp only [Nat.sub_self, List.getElem_cons_zero]
      show PoWValidB {block with hash := some proof} = true
      unfold PoWValidB
      rw [block_strip block proof hbh]
      exact hvp
  · intro i hi
    rw [List.length_append, List.length_cons, List.length_nil] at hi
    by_cases hlt : i < l.length
    · rw [List.getElem_append_left hlt]
      exact hidx i hlt
    · have hieq : i = l.length := by omega
      subst hieq
      rw [List.getElem_append_right (Nat.le_refl _)]
      simp only [Nat.sub_self, List.getElem_cons_zero]
      show block.index = _
      rw [hbi, hlb, hidx (l.length - 1) (by omega)]
      omega

theorem chainListInv_init (t0 : Json) : ChainListInv (initState t0).chain := by
  refine ⟨by simp [initState, save_chain], ?_, ?_, ?_⟩
  · intro h0
    show (genesisBlock t0).hash = _
    rfl
  · intro i hi hpos
    simp [initState, save_chain] at hi
    omega
  · intro i hi
    simp [initState, save_chain] at hi
    subst hi
    rfl

theorem chainListInv_reachableLocal (st : LedgerState) (h : ReachableLocal st) :
    ChainListInv st.chain := by
  induction h with
  | init t0 => exact chainListInv_init t0
  | submit st t f n _ ih =>
    have hc : (new_transaction st t f n).1.chain = st.chain := rfl
    rw [hc]
    exact ih
  | mined st now mid rid rtime fuel _ ih =>
    rcases mine_cases st now mid rid rtime fuel with hc | ⟨block, proof, lb, hl, hbh, hbi, hvp, hc⟩
    · rw [hc]; exact ih
    · rw [hc]
      exact chainListInv_append st.chain block lb proof ih hl hbh hbi hvp

theorem insertByKey_perm (x : HistoryEntry) (l : List HistoryEntry) :
    (insertByKey x l).Perm (x :: l) := by
  induction l with
  | nil => exact List.Perm.refl _
  | cons y ys ih =>
    unfold insertByKey
    by_cases h : entryKeyZ y < entryKeyZ x
    · simp only [h, if_pos]
      exact (ih.cons y).trans (List.Perm.swap x y ys)
    · simp only [h, if_neg, not_false_iff]
      exact List.Perm.refl _

theorem sortByKey_perm (l : List HistoryEntry) : (sortByKey l).Perm l := by
  induction l with
  | nil => exact List.Perm.refl _
  | cons x xs ih =>
    exact (insertByKey_perm x (sortByKey xs)).trans (ih.cons x)

theorem insertByKey_pairwise (x : HistoryEntry) (l : List HistoryEntry)
    (h : l.Pairwise entriesLE) : (insertByKey x l).Pairwise entriesLE := by
  induction l with
  | nil => simp [insertByKey, List.Pairwise]
  | cons y ys ih =>
    rw [List.pairwise_cons] at h
    obtain ⟨hy, hys⟩ := h
    unfold insertByKey
    by_cases hlt : entryKeyZ y < entryKeyZ x
    · simp only [hlt, if_pos]
      rw [List.pairwise_cons]
      refine ⟨?_, ih hys⟩
      intro z hz
      have hz' : z ∈ x :: ys := (insertByKey_perm x ys).mem_iff.mp hz
      rcases List.mem_cons.mp hz' with rfl | hz''
      · exact le_of_lt hlt
      · exact hy z hz''
    · simp only [hlt, if_neg, not_false_iff]
      rw [List.pairwise_cons]
      refine ⟨?_, List.pairwise_cons.mpr ⟨hy, hys⟩⟩
      intro z hz
      rcases List.mem_cons.mp hz with rfl | hz'
      · exact le_of_not_lt hlt
      · exact le_trans (le_of_not_lt hlt) (hy z hz')

theorem sortByKey_pairwise (l : List HistoryEntry) : (sortByKey l).Pairwise entriesLE := by
  induction l with
  | nil => simp [sortByKey]
  | cons x xs ih => exact insertByKey_pairwise x (sortByKey xs) ih

theorem collectHistory_mem (st : LedgerState) (pid : String) (e : HistoryEntry) :
    e ∈ collectHistory st pid ↔
      ((∃ b, b ∈ st.chain ∧ ∃ tx, tx ∈ b.transactions ∧ matchesProduct tx pid = true ∧
          e = ⟨some b.index, tx, pyGet tx "timestamp"⟩) ∨
       (∃ tx, tx ∈ st.pending_transactions ∧ matchesProduct tx pid = true ∧
          e = ⟨none, tx, pyGet tx "timestamp"⟩)) := by
  unfold collectHistory
  rw [List.mem_append]
  constructor
  · rintro (hmem | hmem)
    · left
      rw [List.mem_flatMap] at hmem
      obtain ⟨b, hb, hmem⟩ := hmem
      rw [List.mem_map] at hmem
      obtain ⟨tx, htx, rfl⟩ := hmem
      rw [List.mem_filter] at htx
      exact ⟨b, hb, tx, htx.1, htx.2, rfl⟩
    · right
      rw [List.mem_map] at hmem
      obtain ⟨tx, htx, rfl⟩ := hmem
      rw [List.mem_filter] at htx
      exact ⟨tx, htx.1, htx.2, rfl⟩
  · rintro (⟨b, hb, tx, htx, hm, rfl⟩ | ⟨tx, htx, hm, rfl⟩)
    · left
      rw [List.mem_flatMap]
      refine ⟨b, hb, ?_⟩
      rw [List.mem_map]
      exact ⟨tx, List.mem_filter.mpr ⟨htx, hm⟩, rfl⟩
    · right
      rw [List.mem_map]
      exact ⟨tx, List.mem_filter.mpr ⟨htx, hm⟩, rfl⟩

theorem nullChainBound : 1 < nullChain.length := by decide

/-- The gap the C5 amendment carves out: a candidate whose non-genesis
record carries a null hash key passes is_chain_valid — the falsy null
makes the loop validate the recomputed digest — yet its consensus
reconstruction keeps the hash attribute unset, so the adopted block is
not proof-of-work valid. -/
theorem nullHash_reconstruction_gap :
    is_chain_valid nullChain = true ∧
    PoWValidB (reconstructBlock (nullChain.get ⟨1, nullChainBound⟩)) = false :=
  ⟨by decide, by decide⟩

/-! ### Claim theorems -/

/-- C4: for every block and claimed hash string, is_valid_proof is true
exactly when the claimed hash starts with DIFFICULTY zero characters and
equals the digest recomputed by the block's own compute_hash. -/
theorem c4_is_valid_proof_iff (block : Block) (claimed_hash : String) :
    is_valid_proof block claimed_hash = true ↔
      (claimed_hash.data.take DIFFICULTY = List.replicate DIFFICULTY '0' ∧
       claimed_hash = block.compute_hash) := by
  unfold is_valid_proof strStartsWith
  rw [Bool.and_eq_true, charsStartWith_iff]
  have hd : difficultyZeros.data = List.replicate DIFFICULTY '0' := rfl
  rw [hd, List.length_replicate]
  simp [beq_iff_eq]

/-- C3: is_chain_valid rejects the empty chain; it accepts the genesis
record unconditionally, its effective (stated or recomputed) hash serving
only as the initial reference; and a non-empty chain is valid exactly when
every subsequent record both links to the previous record's effective hash
and passes is_valid_proof on its own effective hash. The function reads
only the supplied records (it takes no ledger state at all). -/
theorem c3_chain_validation :
    is_chain_valid [] = false ∧
    ∀ (c : List BlockRecord),
      (is_chain_valid c = true ↔
        c ≠ [] ∧ ∀ (i : Nat) (hi : i + 1 < c.length),
          (c.get ⟨i + 1, hi⟩).previous_hash = effectiveHash (c.get ⟨i, Nat.lt_of_succ_lt hi⟩) ∧
          is_valid_proof (c.get ⟨i + 1, hi⟩).toBlock (effectiveHash (c.get ⟨i + 1, hi⟩)) = true) := by
  refine ⟨rfl, ?_⟩
  intro c
  cases c with
  | nil => simp [is_chain_valid]
  | cons g rest =>
    show chainCheck (effectiveHash g) rest = true ↔ _
    rw [chainCheck_iff, List.chain'_iff_get]
    constructor
    · intro h
      refine ⟨by simp, ?_⟩
      intro i hi
      have hi' : i < (g :: rest).length - 1 := by
        simp only [List.length_cons] at hi ⊢
        omega
      exact ⟨(h i hi').1, (h i hi').2⟩
    · rintro ⟨hne, h⟩ i hi
      have hi2 : i + 1 < (g :: rest).length := by
        simp only [List.length_cons] at hi ⊢
        omega
      exact ⟨(h i hi2).1, (h i hi2).2⟩

theorem badChainBound : 1 < badChain.length := by decide

/-- Witness for C3: is_chain_valid accepts the concrete two-record chain
badChain, and the characterization instantiated at its second record gives
the link and proof-validity facts. -/
theorem c3_witness :
    (badChain.get ⟨1, badChainBound⟩).previous_hash =
      effectiveHash (badChain.get ⟨0, Nat.lt_of_succ_lt badChainBound⟩) ∧
    is_valid_proof (badChain.get ⟨1, badChainBound⟩).toBlock
      (effectiveHash (badChain.get ⟨1, badChainBound⟩)) = true :=
  ((c3_chain_validation.2 badChain).mp (by decide)).2 0 badChainBound

/-- C2: fork resolution is a three-way contract: a candidate no longer
than the local chain is rejected as tooShort with the ledger unchanged
(an absent or empty candidate is rejected as an error, also unchanged); a
strictly longer valid candidate replaces the chain exactly by the
reconstruction of the records and persists it; a strictly longer invalid
candidate is rejected with the distinct invalid signal, unchanged. -/
theorem c2_fork_resolution (st : LedgerState) (ext : List BlockRecord) :
    (consensus st none = (st, ConsensusOutcome.error)) ∧
    (ext = [] → consensus st (some ext) = (st, ConsensusOutcome.error)) ∧
    (ext ≠ [] → ext.length ≤ st.chain.length →
        consensus st (some ext) = (st, ConsensusOutcome.tooShort)) ∧
    (st.chain.length < ext.length → is_chain_valid ext = true →
        consensus st (some ext) =
          (save_chain {st with chain := ext.map reconstructBlock}, ConsensusOutcome.replaced) ∧
        (consensus st (some ext)).1.chain = ext.map reconstructBlock ∧
        (consensus st (some ext)).1.pending_transactions = st.pending_transactions ∧
        (consensus st (some ext)).1.saved =
          some ((ext.map reconstructBlock).map Block.to_dict, st.pending_transactions)) ∧
    (st.chain.length < ext.length → is_chain_valid ext = false →
        consensus st (some ext) = (st, ConsensusOutcome.invalid)) ∧
    ConsensusOutcome.tooShort ≠ ConsensusOutcome.invalid := by
  refine ⟨rfl, ?_, ?_, ?_, ?_, by decide⟩
  · rintro rfl
    rfl
  · intro hne hle
    cases ext with
    | nil => exact absurd rfl hne
    | cons a tl =>
      simp only [consensus]
      rw [if_pos hle]
  · intro hlt hvalid
    cases ext with
    | nil => simp at hlt
    | cons a tl =>
      have hnle : ¬ ((a :: tl).length ≤ st.chain.length) := not_le.mpr hlt
      have he : consensus st (some (a :: tl)) =
          (save_chain {st with chain := (a :: tl).map reconstructBlock},
           ConsensusOutcome.replaced) := by
        simp only [consensus]
        rw [if_neg hnle, if_pos hvalid]
      exact ⟨he, by rw [he]; rfl, by rw [he]; rfl, by rw [he]; rfl⟩
  · intro hlt hinvalid
    cases ext with
    | nil => simp at hlt
    | cons a tl =>
      have hnle : ¬ ((a :: tl).length ≤ st.chain.length) := not_le.mpr hlt
      have hnv : ¬ (is_chain_valid (a :: tl) = true) := by simp [hinvalid]
      simp only [consensus]
      rw [if_neg hnle, if_neg hnv]

/-- Witness for C2: on the freshly initialized ledger, a length-1
candidate is tooShort, the concrete valid two-record candidate badChain
replaces the chain, and the tampered variant is rejected as invalid. -/
theorem c2_witness :
    consensus (initState (.num 1)) (some [gRec7]) =
      (initState (.num 1), ConsensusOutcome.tooShort) ∧
    consensus (initState (.num 1)) (some badChain) =
      (save_chain {initState (.num 1) with chain := badChain.map reconstructBlock},
       ConsensusOutcome.replaced) ∧
    consensus (initState (.num 1)) (some tamperedChain) =
      (initState (.num 1), ConsensusOutcome.invalid) :=
  ⟨(c2_fork_resolution _ _).2.2.1 (by simp) (by decide),
   ((c2_fork_resolution _ _).2.2.2.1 (by decide) (by decide)).1,
   (c2_fork_resolution _ _).2.2.2.2.1 (by decide) (by decide)⟩

/-- C7: mining with an empty pending pool is the nothing-to-mine no-op:
the result is none and the whole ledger state, chain and pool alike, is
returned unchanged. -/
theorem c7_mine_empty_pool (st : LedgerState) (now : Json) (miner_id : Option String)
    (rewardId : String) (rewardTime : Json) (fuel : Nat)
    (h : st.pending_transactions = []) :
    mine st now miner_id rewardId rewardTime fuel = (st, none) := by
  unfold mine
  rw [h]

/-- Witness for C7: the freshly initialized ledger has an empty pool and
mining it returns none with the state unchanged. -/
theorem c7_witness :
    (initState (.num 1)).pending_transactions = [] ∧
    mine (initState (.num 1)) (.num 2) (some "m1") "r" (.num 3) 5 = (initState (.num 1), none) :=
  ⟨rfl, c7_mine_empty_pool _ _ _ _ _ _ rfl⟩

/-- C10: mine yields the same result value (none) both on the
nothing-to-mine path (empty pool) and on the not-added path (the final
add_block re-check fails), so the two outcomes are indistinguishable from
the return value alone. -/
theorem c10_indistinguishable :
    (∀ (st : LedgerState) (now : Json) (miner_id : Option String) (rewardId : String)
        (rewardTime : Json) (fuel : Nat), st.pending_transactions = [] →
        (mine st now miner_id rewardId rewardTime fuel).2 = none) ∧
    (∀ (st : LedgerState) (new_block : Block) (proof : String) (miner_id : Option String)
        (rewardId : String) (rewardTime : Json),
        (add_block st new_block proof).2 = false →
        (mineAppendStep st new_block proof miner_id rewardId rewardTime).2 = none) := by
  constructor
  · intro st now mid rid rtime fuel h
    simp [mine, h]
  · intro st nb pf mid rid rtime h
    simp [mineAppendStep, h]

/-- Witness for C10: the empty-pool path on the fresh ledger returns none,
and the failing-re-check path on the concrete mismatching block also
returns none. -/
theorem c10_witness :
    (mine (initState (.num 1)) (.num 2) none "r" (.num 3) 4).2 = none ∧
    (add_block (initState (.num 1)) c10Block "p").2 = false ∧
    (mineAppendStep (initState (.num 1)) c10Block "p" (some "m") "r" (.num 3)).2 = none :=
  ⟨c10_indistinguishable.1 _ _ _ _ _ _ rfl,
   by decide,
   c10_indistinguishable.2 _ _ _ _ _ _ (by decide)⟩

/-- C6 (amended): after a successful mine with a truthy (non-empty)
miner_id, the pool holds exactly the one synthetic reward transaction,
of type reward, crediting that miner; after a successful mine with no
miner_id — or with the falsy empty-string miner_id, which the source
treats as absent — the pool is empty. -/
theorem c6_pool_after_mine (st : LedgerState) (now : Json) (miner_id : Option String)
    (rewardId : String) (rewardTime : Json) (fuel : Nat) (st' : LedgerState) (b : Block)
    (h : mine st now miner_id rewardId rewardTime fuel = (st', some b)) :
    (∀ m, miner_id = some m → m ≠ "" →
        st'.pending_transactions = [rewardTx rewardId m rewardTime b.index] ∧
        pyGet (rewardTx rewardId m rewardTime b.index) "type" = some (.str "reward") ∧
        pyGet (rewardTx rewardId m rewardTime b.index) "to" = some (.str m)) ∧
    ((miner_id = none ∨ miner_id = some "") → st'.pending_transactions = []) := by
  unfold mine at h
  split at h
  · simp at h
  · split at h
    · simp at h
    · dsimp only [] at h
      split at h
      · simp at h
      · rename_i mined pf
        unfold mineAppendStep at h
        dsimp only [] at h
        split at h
        · rw [Prod.mk.injEq] at h
          obtain ⟨h1, h2⟩ := h
          have hb := Option.some.inj h2
          subst h1
          subst hb
          constructor
          · intro m hm hne
            subst hm
            simp only [save_chain, if_neg hne]
            exact ⟨trivial, rfl, rfl⟩
          · rintro (rfl | rfl) <;> rfl
        · simp at h

/-- Witness for C6: the concrete successful mine of craftedState with
miner id "m1" leaves exactly one reward transaction to "m1" in the pool. -/
theorem c6_witness :
    (mine craftedState (.num 6) (some "m1") "r1" (.num 9) 1).1.pending_transactions =
      [rewardTx "r1" "m1" (.num 9) c6Block.index] ∧
    pyGet (rewardTx "r1" "m1" (.num 9) c6Block.index) "type" = some (.str "reward") ∧
    pyGet (rewardTx "r1" "m1" (.num 9) c6Block.index) "to" = some (.str "m1") :=
  (c6_pool_after_mine craftedState (.num 6) (some "m1") "r1" (.num 9) 1
    (mine craftedState (.num 6) (some "m1") "r1" (.num 9) 1).1 c6Block rfl).1 "m1" rfl
    (by decide)

/-- Counterexample for C6 as stated: mining craftedState with the
supplied miner id "" succeeds (a sealed block is returned), yet the pool
afterwards is empty, not the single reward transaction to that miner the
claim promises for every supplied miner_id. -/
theorem c6_counterexample :
    (mine craftedState (.num 6) (some "") "r1" (.num 9) 1).2.isSome = true ∧
    (mine craftedState (.num 6) (some "") "r1" (.num 9) 1).1.pending_transactions = [] :=
  ⟨by decide, rfl⟩

theorem dumps_obj_cons_data (k : String) (v : Json) (k2 : String) (v2 : Json) (tl : JsonKVs) :
    (dumpsRaw (.obj (.cons k v (.cons k2 v2 tl)))).data =
      '{' :: ((quoteStr k).data ++ (": " : String).data ++ (dumpsRaw v).data ++
        (", " : String).data ++ (dumpsRawKVs (.cons k2 v2 tl)).data ++ ['}']) := by
  show (("\x7b" ++ (quoteStr k ++ ": " ++ dumpsRaw v ++ ", " ++ dumpsRawKVs (.cons k2 v2 tl))) ++
      "\x7d").data = _
  simp only [strData_append, List.append_assoc, List.cons_append, List.nil_append]

/-- C1 (amended): compute_hash is deterministic and side-effect free —
it is a function of the block's attribute dictionary, so equal attributes
(the five fields together with the sealing state of the hash attribute)
always give equal digests — but it is not independent of sealing state:
once the ledger assigns the hash attribute, the serialized dictionary
gains a "hash" key, so the post-sealing digest is computed over a
different serialization than the pre-sealing one. -/
theorem c1_compute_hash :
    (∀ b₁ b₂ : Block, blockAttrs b₁ = blockAttrs b₂ →
        b₁.compute_hash = b₂.compute_hash) ∧
    (∀ (b : Block) (h : String),
        Json.dumps (Block.dict {b with hash := some h}) ≠
          Json.dumps (Block.dict {b with hash := none})) := by
  constructor
  · intro b₁ b₂ h
    cases b₁
    cases b₂
    simp only [blockAttrs, Prod.mk.injEq] at h
    obtain ⟨rfl, rfl, rfl, rfl, rfl, rfl⟩ := h
    rfl
  · intro b h heq
    have e1 : Json.dumps (Block.dict {b with hash := some h}) =
        dumpsRaw (.obj (.cons "hash" (.str h) (sortedBaseKVs b))) := rfl
    have e2 : Json.dumps (Block.dict {b with hash := none}) =
        dumpsRaw (.obj (sortedBaseKVs b)) := rfl
    rw [e1, e2] at heq
    have hd := congrArg String.data heq
    rw [show sortedBaseKVs b = .cons "index" (.num b.index)
        (.cons "nonce" (.num b.nonce)
          (.cons "previous_hash" (.str b.previous_hash)
            (.cons "timestamp" (sortJson b.timestamp)
              (.cons "transactions" (.arr (sortJsonList (JsonList.ofList b.transactions)))
                .nil)))) from rfl] at hd
    rw [dumps_obj_cons_data, dumps_obj_cons_data] at hd
    have q1 : (quoteStr "hash").data = ['"', 'h', 'a', 's', 'h', '"'] := rfl
    have q2 : (quoteStr "index").data = ['"', 'i', 'n', 'd', 'e', 'x', '"'] := rfl
    rw [q1, q2] at hd
    simp at hd

/-- Witness for C1: the determinism part applied at the concrete block. -/
theorem c1_witness : Block.compute_hash c1Block = Block.compute_hash c1Block :=
  c1_compute_hash.1 c1Block c1Block rfl

/-- Counterexample for C1 as stated: sealing changes the digest — after
assigning the hash attribute the recomputed SHA-256 digest of the
concrete block differs from the digest computed before sealing. -/
theorem c1_counterexample :
    Block.compute_hash {c1Block with hash := some (Block.compute_hash c1Block)} ≠
      Block.compute_hash c1Block := by decide

theorem record_pow_valid (r : BlockRecord) (hne : r.hash ≠ some (some ""))
    (hnn : r.hash ≠ some none)
    (hproof : is_valid_proof r.toBlock (effectiveHash r) = true) :
    PoWValidB (reconstructBlock r) = true := by
  cases hr : r.hash with
  | some v =>
    cases v with
    | some s =>
      have hs : s ≠ "" := by
        rintro rfl
        exact hne hr
      have heff : effectiveHash r = s := by simp [effectiveHash, hr, hs]
      rw [heff] at hproof
      have hrw : reconstructBlock r = {r.toBlock with hash := some s} := by
        simp [reconstructBlock, hr]
      rw [hrw]
      exact hproof
    | none => exact absurd hr hnn
  | none =>
    have heff : effectiveHash r = r.toBlock.compute_hash := by simp [effectiveHash, hr]
    rw [heff] at hproof
    have hrw : reconstructBlock r = {r.toBlock with hash := some r.toBlock.compute_hash} := by
      simp [reconstructBlock, hr]
    rw [hrw]
    exact hproof

/-- C5 (amended): in every ledger state reachable without fork
resolution, every non-genesis block is proof-of-work valid (its stored
digest has DIFFICULTY leading zeros and equals the digest recomputed from
its own five fields), while the genesis block's stored digest equals its
recomputed digest without having to meet the difficulty target; and a
candidate accepted by is_chain_valid guarantees proof-of-work validity of
every reconstructed non-genesis record whose stated hash key is neither
the empty string nor null — the genesis record of a candidate is trusted
unconditionally (see the counterexample), a null stated hash passes
validation but is kept by the reconstruction as an unset hash attribute
(see nullHash_reconstruction_gap), and an empty-string stated hash is
validated against the recomputed digest yet reconstructed as the empty
string. -/
theorem c5_pow_validity :
    (∀ st, ReachableLocal st →
      (∀ (i : Nat) (hi : i < st.chain.length), 0 < i → PoWValidB st.chain[i] = true) ∧
      (∀ (h0 : 0 < st.chain.length),
        st.chain[0].hash = some (Block.compute_hash {st.chain[0] with hash := none}))) ∧
    (∀ (ext : List BlockRecord), is_chain_valid ext = true →
      ∀ (i : Nat) (hi : i < ext.length), 0 < i → ext[i].hash ≠ some (some "") →
        ext[i].hash ≠ some none →
        PoWValidB (reconstructBlock ext[i]) = true) := by
  constructor
  · intro st hst
    obtain ⟨_, hgen, hpow, _⟩ := chainListInv_reachableLocal st hst
    exact ⟨hpow, hgen⟩
  · intro ext hvalid i hi hpos hne hnn
    cases ext with
    | nil => simp [is_chain_valid] at hvalid
    | cons g rest =>
      have hch : List.Chain' recordLink (g :: rest) := (chainCheck_iff g rest).mp hvalid
      rw [List.chain'_iff_get] at hch
      obtain ⟨j, rfl⟩ : ∃ j, i = j + 1 := ⟨i - 1, by omega⟩
      have hj : j < (g :: rest).length - 1 := by
        simp only [List.length_cons] at hi ⊢
        omega
      have hproof := (hch j hj).2
      simp only [List.get_eq_getElem] at hproof
      exact record_pow_valid _ hne hnn hproof

theorem badStateBound : 0 < badState.chain.length := by decide

theorem craftedChainBound : 1 < craftedMinedState.chain.length := by decide

/-- Witness for C5: the block mined on the crafted reachable state is
proof-of-work valid, and so is the reconstructed non-genesis record of
the concrete accepted candidate badChain. -/
theorem c5_witness :
    PoWValidB (craftedMinedState.chain.get ⟨1, craftedChainBound⟩) = true ∧
    PoWValidB (reconstructBlock (badChain.get ⟨1, badChainBound⟩)) = true :=
  ⟨(c5_pow_validity.1 craftedMinedState
      (ReachableLocal.mined _ _ _ _ _ _
        (ReachableLocal.submit _ _ _ _ (ReachableLocal.init _)))).1 1 craftedChainBound
      (by decide),
   c5_pow_validity.2 badChain (by decide) 1 badChainBound (by decide) (by decide) (by decide)⟩

/-- Counterexample for C5 as stated: badState is reachable (fresh start,
then consensus adoption of the strictly longer valid candidate badChain),
yet the genesis block it adopted — trusted with the fabricated stated
hash "ff" — is not proof-of-work valid: its stored digest has no zero
prefix and is not the digest of its own fields. -/
theorem c5_counterexample :
    Reachable badState ∧ PoWValidB (badState.chain.get ⟨0, badStateBound⟩) = false :=
  ⟨Reachable.resolve _ _ (Reachable.init _), by decide⟩

/-- C9 (amended): in every ledger state reachable without fork
resolution, the chain is non-empty and the block at every position i
carries index i — indices are non-negative, start at 0 for the genesis
position and increase by exactly 1. Fork-resolution replacement does not
validate indices and can break this (see the counterexample). -/
theorem c9_index_continuity (st : LedgerState) (h : ReachableLocal st) :
    st.chain ≠ [] ∧ ∀ (i : Nat) (hi : i < st.chain.length), st.chain[i].index = (i : Int) := by
  obtain ⟨hne, _, _, hidx⟩ := chainListInv_reachableLocal st h
  exact ⟨hne, hidx⟩

/-- Witness for C9: in the crafted reachable state (start, submit, mine)
the block at position 1 has index 1. -/
theorem c9_witness :
    (craftedMinedState.chain.get ⟨1, craftedChainBound⟩).index = (1 : Int) :=
  (c9_index_continuity craftedMinedState
    (ReachableLocal.mined _ _ _ _ _ _
      (ReachableLocal.submit _ _ _ _ (ReachableLocal.init _)))).2 1 craftedChainBound

/-- Counterexample for C9 as stated: badState is reachable, but the block
at position 0 of its chain has index 7, not 0 — consensus replacement
never checks indices. -/
theorem c9_counterexample :
    Reachable badState ∧ (badState.chain.get ⟨0, badStateBound⟩).index = 7 ∧
    (badState.chain.get ⟨0, badStateBound⟩).index ≠ 0 :=
  ⟨Reachable.resolve _ _ (Reachable.init _), by decide, by decide⟩

/-- C8: whenever get_product_history returns a result (all collected
timestamp keys comparable), that result holds exactly the matching
transactions of every sealed block — each tagged with its block index and
timestamp — plus the matching pool transactions tagged as pending (block
index none), sorted ascending by the timestamp key with a missing
timestamp treated as 0. -/
theorem c8_product_history (st : LedgerState) (product_id : String) (l : List HistoryEntry)
    (h : get_product_history st product_id = some l) :
    l.Perm (collectHistory st product_id) ∧
    l.Pairwise entriesLE ∧
    (∀ e : HistoryEntry, e ∈ l ↔
      ((∃ b, b ∈ st.chain ∧ ∃ tx, tx ∈ b.transactions ∧ matchesProduct tx product_id = true ∧
          e = ⟨some b.index, tx, pyGet tx "timestamp"⟩) ∨
       (∃ tx, tx ∈ st.pending_transactions ∧ matchesProduct tx product_id = true ∧
          e = ⟨none, tx, pyGet tx "timestamp"⟩))) := by
  unfold get_product_history at h
  dsimp only [] at h
  split at h
  · have hl := Option.some.inj h
    subst hl
    refine ⟨sortByKey_perm _, sortByKey_pairwise _, ?_⟩
    intro e
    rw [(sortByKey_perm _).mem_iff]
    exact collectHistory_mem st product_id e
  · exact absurd h (by simp)

/-- Witness for C8: on the concrete mixed ledger the history of
prod-0001 is the three matching transactions in ascending timestamp
order (missing timestamp first as 0, pending entry tagged none), and the
theorem yields its sortedness. -/
theorem c8_witness :
    get_product_history c8State "prod-0001" =
      some [⟨some 1, c8TxB, none⟩, ⟨none, c8TxD, some (.num 5)⟩,
            ⟨some 0, c8TxA, some (.num 10)⟩] ∧
    ([⟨some 1, c8TxB, none⟩, ⟨none, c8TxD, some (.num 5)⟩,
      ⟨some 0, c8TxA, some (.num 10)⟩] : List HistoryEntry).Pairwise entriesLE :=
  ⟨rfl,
   (c8_product_history c8State "prod-0001"
     [⟨some 1, c8TxB, none⟩, ⟨none, c8TxD, some (.num 5)⟩,
      ⟨some 0, c8TxA, some (.num 10)⟩] rfl).2.1⟩
